import Mathlib

/-!
# A shallow embedding of swift's `TaskQueue` (include/swift/Basic/TaskQueue.h)

The repository provides the public interface of `swift::sys::TaskQueue`:
a bounded-parallelism job runner with a FIFO backlog of tasks, a began/finished
callback protocol, and a cooperative stop protocol.  Only the header (interface
and documentation) is in the repository; the scheduler body is modelled from
the specification as an executable small-step state machine.  All
nondeterminism of the real system (which child process exits first, whether a
spawn succeeds, process ids, exit codes, raw output) is supplied by explicit
oracles, so a run of the model is a pure, computable function.
-/

namespace SwiftTaskQueue

/-- `TaskFinishedResponse` from TaskQueue.h: how a TaskQueue should respond to
the task-finished event (continue, or stop starting new tasks). -/
inductive TaskFinishedResponse where
  | ContinueExecution : TaskFinishedResponse
  | StopExecution : TaskFinishedResponse
deriving DecidableEq, Repr

/-- Whether a response is the stop signal. -/
def TaskFinishedResponse.isStop : TaskFinishedResponse → Bool
  | .StopExecution => true
  | .ContinueExecution => false

/-- The immutable description of one task, as stored by `TaskQueue::addTask`:
executable path, arguments, environment override (empty means: inherit the
parent's environment) and the opaque caller context (`void *`, modelled as a
`Nat`-valued opaque handle). -/
structure TaskDesc where
  execPath : String
  args : List String
  env : List String
  context : Nat
deriving DecidableEq, Repr

instance : Inhabited TaskDesc := ⟨⟨"", [], [], 0⟩⟩

/-- Oracle describing how the operating system treats one task: whether the
spawn succeeds, the process id assigned on success, the exit status the
process eventually reports and the raw bytes it writes. -/
structure TaskBehavior where
  spawnOk : Bool
  pid : Nat
  retCode : Int
  rawOutput : String
deriving DecidableEq, Repr

/-- The platform facts `TaskQueue` consults: the two capability queries
(`supportsBufferingOutput`, `supportsParallelExecution`) and the
hardware-concurrency figure used to resolve a requested parallelism of 0. -/
structure Platform where
  supportsBufferingOutput : Bool
  supportsParallelExecution : Bool
  hardwareConcurrency : Nat
deriving DecidableEq, Repr

/-- The `TaskQueue` object state before a run: the FIFO backlog filled by
`addTask` (TaskQueue.h: `std::queue<std::unique_ptr<Task>> QueuedTasks`) and
the constructor argument `NumberOfParallelTasks` (0 means: choose for the
current system). -/
structure TaskQueue where
  queuedTasks : List TaskDesc
  numberOfParallelTasks : Nat
deriving DecidableEq, Repr

/-- `TaskQueue::addTask`: appends a new task description at the tail of the
backlog; no process is spawned and there is no error path. -/
def TaskQueue.addTask (q : TaskQueue) (execPath : String) (args : List String)
    (env : List String) (context : Nat) : TaskQueue :=
  { q with queuedTasks := q.queuedTasks ++ [⟨execPath, args, env, context⟩] }

/-- Modelled from the spec: resolution of the parallelism ceiling (the body of
`TaskQueue::getNumberOfParallelTasks` is not in the repository).  A positive
requested value is used as-is, a requested 0 is replaced by the
platform-detected hardware concurrency, and a platform without parallel
execution forces the ceiling to 1 regardless of the request. -/
def resolveParallelism (p : Platform) (requested : Nat) : Nat :=
  if p.supportsParallelExecution = false then 1
  else if requested = 0 then p.hardwareConcurrency
  else requested

/-- `TaskQueue::getNumberOfParallelTasks`: the maximum number of tasks this
queue will execute in parallel, after resolution against the platform. -/
def TaskQueue.getNumberOfParallelTasks (q : TaskQueue) (p : Platform) : Nat :=
  resolveParallelism p q.numberOfParallelTasks

/-- Modelled from the spec: the sentinel failure status recorded for a task
whose spawn fails (any failing, hence nonzero, status; the concrete value is
not observable beyond being a failure). -/
def sentinelFailureCode : Int := -2

/-- One observable callback invocation during a run.  `began i pid ctx` is an
invocation of the TaskBeganCallback for the task at backlog position `i`;
`finished i pid ret out ctx` is an invocation of the TaskFinishedCallback. -/
inductive Event where
  | began : Nat → Nat → Nat → Event
  | finished : Nat → Nat → Int → String → Nat → Event
deriving DecidableEq, Repr

instance : Inhabited Event := ⟨.began 0 0 0⟩

/-- A full description of one run: the queue, the platform, the per-task OS
behavior oracle, the finished callback supplied by the caller (pid, return
code, output, context ↦ response), and the completion-order oracle `sched`
(given the number of events so far, which member of the active set the
multiplexed wait reports next; taken modulo the size of the active set). -/
structure RunConfig where
  queue : TaskQueue
  platform : Platform
  beh : Nat → TaskBehavior
  finishCb : Nat → Int → String → Nat → TaskFinishedResponse
  sched : Nat → Nat

/-- The task description at backlog position `i`. -/
def RunConfig.taskAt (cfg : RunConfig) (i : Nat) : TaskDesc :=
  cfg.queue.queuedTasks.getD i default

/-- The resolved parallelism ceiling of a run. -/
def RunConfig.limit (cfg : RunConfig) : Nat :=
  cfg.queue.getNumberOfParallelTasks cfg.platform

/-- The number of tasks enqueued for the run. -/
def RunConfig.numTasks (cfg : RunConfig) : Nat :=
  cfg.queue.queuedTasks.length

/-- The mutable state of the dispatch loop: the backlog of positions of tasks
not yet started (FIFO), the active set of positions of spawned, unfinished
tasks, the stop flag (set when a finished callback returns `StopExecution`),
the error accumulator behind `execute`'s boolean result, and the chronological
trace of callback invocations so far. -/
structure RunState where
  backlog : List Nat
  active : List Nat
  stopping : Bool
  anyFailed : Bool
  trace : List Event
deriving Repr

/-- The initial state of a run: every enqueued task is pending, in insertion
order. -/
def initState (cfg : RunConfig) : RunState :=
  ⟨List.range cfg.numTasks, [], false, false, []⟩

/-- Modelled from the spec: starting the head `i` of the backlog.  On a
successful spawn the task moves into the active set and the began callback
fires.  If the spawn fails, the task is still treated as started: the began
callback fires and the task is immediately finished with the sentinel failure
status and empty output, the finished callback's response being honoured
exactly as for a normally-run task. -/
def startTask (cfg : RunConfig) (s : RunState) (i : Nat) (rest : List Nat) : RunState :=
  let t := cfg.taskAt i
  let b := cfg.beh i
  if b.spawnOk then
    { s with backlog := rest, active := s.active ++ [i],
             trace := s.trace ++ [.began i b.pid t.context] }
  else
    let resp := cfg.finishCb 0 sentinelFailureCode "" t.context
    { s with backlog := rest,
             stopping := s.stopping || resp.isStop,
             anyFailed := true,
             trace := s.trace ++ [.began i 0 t.context,
                                  .finished i 0 sentinelFailureCode "" t.context] }

/-- Modelled from the spec: completing the active task at position `k` of the
active set.  Its exit status and (if the platform buffers output) its raw
output are reported to the finished callback, whose response may set the stop
flag. -/
def finishAt (cfg : RunConfig) (s : RunState) (k : Nat) : RunState :=
  let i := s.active.getD k 0
  let t := cfg.taskAt i
  let b := cfg.beh i
  let out := if cfg.platform.supportsBufferingOutput then b.rawOutput else ""
  let resp := cfg.finishCb b.pid b.retCode out t.context
  { s with
    active := s.active.eraseIdx k,
    stopping := s.stopping || resp.isStop,
    anyFailed := s.anyFailed || decide (b.retCode ≠ 0),
    trace := s.trace ++ [.finished i b.pid b.retCode out t.context] }

/-- Modelled from the spec: the blocking multiplexed wait.  The oracle picks
which active task finishes next.  Returns `none` when the active set is
empty. -/
def finishStep (cfg : RunConfig) (s : RunState) : Option RunState :=
  match s.active with
  | [] => none
  | _ :: _ => some (finishAt cfg s (cfg.sched s.trace.length % s.active.length))

/-- Modelled from the spec: one step of `TaskQueue::execute`'s dispatch loop.
While a slot is open, the backlog is nonempty and the run is not stopping, the
head of the backlog is started; otherwise the loop blocks on the multiplexed
wait; when nothing can start and nothing is active the run is over (`none`). -/
def stepState (cfg : RunConfig) (s : RunState) : Option RunState :=
  match s.backlog with
  | i :: rest =>
    if s.active.length < cfg.limit ∧ s.stopping = false then
      some (startTask cfg s i rest)
    else finishStep cfg s
  | [] => finishStep cfg s

/-- Iterate the dispatch loop for at most `n` steps (stopping early once the
loop is over). -/
def runIter (cfg : RunConfig) : Nat → RunState → RunState
  | 0, s => s
  | n + 1, s =>
    match stepState cfg s with
    | none => s
    | some s' => runIter cfg n s'

/-- Enough fuel to drive any run of `cfg` to completion. -/
def fuelOf (cfg : RunConfig) : Nat := 2 * cfg.numTasks

/-- The final state reached by `TaskQueue::execute` on `cfg`. -/
def execFinal (cfg : RunConfig) : RunState :=
  runIter cfg (fuelOf cfg) (initState cfg)

/-- Modelled from the spec: `TaskQueue::execute`.  Runs the dispatch loop to
completion and returns `true` if any task finished with a failing status or
failed to spawn, or if the run was stopped before the backlog was drained. -/
def TaskQueue.execute (q : TaskQueue) (p : Platform) (beh : Nat → TaskBehavior)
    (finishCb : Nat → Int → String → Nat → TaskFinishedResponse)
    (sched : Nat → Nat) : Bool :=
  let final := execFinal ⟨q, p, beh, finishCb, sched⟩
  final.anyFailed || (final.stopping && !final.backlog.isEmpty)

/-! ## Trace observables -/

/-- The task positions whose began callback has fired, in firing order. -/
def startedOf (tr : List Event) : List Nat :=
  tr.filterMap fun e =>
    match e with
    | .began i _ _ => some i
    | .finished _ _ _ _ _ => none

/-- The task positions whose finished callback has fired, in firing order. -/
def finishedOf (tr : List Event) : List Nat :=
  tr.filterMap fun e =>
    match e with
    | .began _ _ _ => none
    | .finished i _ _ _ _ => some i

/-- How many began events the trace holds for task position `i`. -/
def beganCount (tr : List Event) (i : Nat) : Nat :=
  (startedOf tr).count i

/-- How many finished events the trace holds for task position `i`. -/
def finishedCount (tr : List Event) (i : Nat) : Nat :=
  (finishedOf tr).count i

/-- Whether an event reports a task finishing with a failing (nonzero)
status. -/
def failedFinish : Event → Bool
  | .began _ _ _ => false
  | .finished _ _ ret _ _ => decide (ret ≠ 0)

/-- The output string carried by a finished event (`""` for a began event,
which carries no output). -/
def eventOutput : Event → String
  | .began _ _ _ => ""
  | .finished _ _ _ o _ => o

/-- The opaque context carried by a callback invocation. -/
def eventCtx : Event → Nat
  | .began _ _ c => c
  | .finished _ _ _ _ c => c

/-- The backlog position of the task a callback invocation is about. -/
def eventIdx : Event → Nat
  | .began i _ _ => i
  | .finished i _ _ _ _ => i

/-- The loop measure: every step of the dispatch loop strictly decreases it. -/
def loopMeasure (s : RunState) : Nat := 2 * s.backlog.length + s.active.length

/-! ## The run invariant

Every property below holds of the initial state and is preserved by each
dispatch-loop step, hence holds at every instant of every run. -/

structure ReachInv (cfg : RunConfig) (s : RunState) : Prop where
  /-- Tasks started so far, in start order, followed by the pending backlog,
  is exactly the original backlog. -/
  started_backlog : startedOf s.trace ++ s.backlog = List.range cfg.numTasks
  /-- A task has as many finished events as began events, except for a
  currently active task, which has one outstanding began event. -/
  counts : ∀ i, finishedCount s.trace i + s.active.count i = beganCount s.trace i
  /-- In every prefix of the trace a task has at most as many finished events
  as began events: a task's began callback precedes its finished callback. -/
  prefixCounts : ∀ i n,
    finishedCount (s.trace.take n) i ≤ beganCount (s.trace.take n) i
  /-- The error accumulator is set exactly when some finished event reported a
  failing status. -/
  failFlag : s.anyFailed = true ↔ ∃ e ∈ s.trace, failedFinish e = true
  /-- A started task whose spawn fails yields a failing finished event. -/
  spawnFailEv : ∀ i ∈ startedOf s.trace, (cfg.beh i).spawnOk = false →
    ∃ e ∈ s.trace, failedFinish e = true
  /-- Without output buffering, every callback receives empty output. -/
  outputsEmpty : cfg.platform.supportsBufferingOutput = false →
    ∀ e ∈ s.trace, eventOutput e = ""
  /-- Every callback receives exactly the context stored for its task. -/
  ctxOk : ∀ e ∈ s.trace, eventCtx e = (cfg.taskAt (eventIdx e)).context
  /-- A started task whose spawn fails is immediately finished with the
  sentinel failure status and empty output. -/
  spawnAdj : ∀ i ∈ startedOf s.trace, (cfg.beh i).spawnOk = false →
    ∃ p, p + 1 < s.trace.length ∧
      s.trace.getD p default = Event.began i 0 (cfg.taskAt i).context ∧
      s.trace.getD (p + 1) default =
        Event.finished i 0 sentinelFailureCode "" (cfg.taskAt i).context

/-! ## Concrete runs used as sanity checks -/

/-- A concrete queue of three tasks, ceiling 2. -/
def sampleQueue : TaskQueue :=
  (((⟨[], 2⟩ : TaskQueue).addTask "a" [] [] 10).addTask "b" [] [] 11).addTask
    "c" [] [] 12

/-- A platform with output buffering and parallel execution. -/
def samplePlatform : Platform := ⟨true, true, 4⟩

/-- A finished callback that always continues. -/
def allContinue : Nat → Int → String → Nat → TaskFinishedResponse :=
  fun _ _ _ _ => .ContinueExecution

/-- A finished callback that requests a stop upon any failing status. -/
def stopOnFail : Nat → Int → String → Nat → TaskFinishedResponse :=
  fun _ ret _ _ => if ret = 0 then .ContinueExecution else .StopExecution

/-- A completion-order oracle: the longest-running active task exits first. -/
def firstDone : Nat → Nat := fun _ => 0

/-- Task 0 fails to spawn; the others run and succeed. -/
def behSpawnFailZero : Nat → TaskBehavior :=
  fun i => ⟨decide (i ≠ 0), 100 + i, 0, "raw"⟩

/-- Task 0 exits with status 1; the others succeed. -/
def behFailZero : Nat → TaskBehavior :=
  fun i => ⟨true, 100 + i, if i = 0 then 1 else 0, "raw"⟩

/-- All tasks spawn and succeed, each writing some output. -/
def behAllOk : Nat → TaskBehavior := fun i => ⟨true, 100 + i, 0, "XYZ"⟩

/-- A run in which task 0 fails and the callback stops the queue. -/
def cfgStop : RunConfig :=
  ⟨sampleQueue, samplePlatform, behFailZero, stopOnFail, firstDone⟩

/-- A run in which task 0 fails to spawn. -/
def cfgSpawnFail : RunConfig :=
  ⟨sampleQueue, samplePlatform, behSpawnFailZero, allContinue, firstDone⟩

/-- A run on a platform without output buffering. -/
def cfgNoBuf : RunConfig :=
  ⟨sampleQueue, ⟨false, true, 4⟩, behAllOk, allContinue, firstDone⟩

/-! ## Basic facts about the trace observables -/

@[simp]
theorem startedOf_nil : startedOf [] = [] := rfl

@[simp]
theorem finishedOf_nil : finishedOf [] = [] := rfl

@[simp]
theorem startedOf_append (t u : List Event) :
    startedOf (t ++ u) = startedOf t ++ startedOf u :=
  List.filterMap_append t u _

@[simp]
theorem finishedOf_append (t u : List Event) :
    finishedOf (t ++ u) = finishedOf t ++ finishedOf u :=
  List.filterMap_append t u _

@[simp]
theorem startedOf_began (i pid c : Nat) :
    startedOf [.began i pid c] = [i] := rfl

@[simp]
theorem startedOf_finished (i pid : Nat) (r : Int) (o : String) (c : Nat) :
    startedOf [.finished i pid r o c] = [] := rfl

@[simp]
theorem finishedOf_began (i pid c : Nat) :
    finishedOf [.began i pid c] = [] := rfl

@[simp]
theorem finishedOf_finished (i pid : Nat) (r : Int) (o : String) (c : Nat) :
    finishedOf [.finished i pid r o c] = [i] := rfl

@[simp]
theorem startedOf_cons_began (i pid c : Nat) (tr : List Event) :
    startedOf (.began i pid c :: tr) = i :: startedOf tr := rfl

@[simp]
theorem startedOf_cons_finished (i pid : Nat) (r : Int) (o : String) (c : Nat)
    (tr : List Event) :
    startedOf (.finished i pid r o c :: tr) = startedOf tr := rfl

@[simp]
theorem finishedOf_cons_began (i pid c : Nat) (tr : List Event) :
    finishedOf (.began i pid c :: tr) = finishedOf tr := rfl

@[simp]
theorem finishedOf_cons_finished (i pid : Nat) (r : Int) (o : String) (c : Nat)
    (tr : List Event) :
    finishedOf (.finished i pid r o c :: tr) = i :: finishedOf tr := rfl

@[simp]
theorem beganCount_nil (i : Nat) : beganCount [] i = 0 := rfl

@[simp]
theorem finishedCount_nil (i : Nat) : finishedCount [] i = 0 := rfl

theorem beganCount_one (j pid c i : Nat) :
    beganCount [.began j pid c] i = if j = i then 1 else 0 := by
  simp [beganCount, startedOf, List.count_cons, List.count_nil, beq_iff_eq]

theorem finishedCount_one_began (j pid c i : Nat) :
    finishedCount [.began j pid c] i = 0 := rfl

theorem beganCount_one_finished (j pid : Nat) (r : Int) (o : String) (c i : Nat) :
    beganCount [.finished j pid r o c] i = 0 := rfl

theorem finishedCount_one_finished (j pid : Nat) (r : Int) (o : String) (c i : Nat) :
    finishedCount [.finished j pid r o c] i = if j = i then 1 else 0 := by
  simp [finishedCount, finishedOf, List.count_cons, List.count_nil, beq_iff_eq]

theorem beganCount_append (t u : List Event) (i : Nat) :
    beganCount (t ++ u) i = beganCount t i + beganCount u i := by
  simp [beganCount, List.count_append]

theorem finishedCount_append (t u : List Event) (i : Nat) :
    finishedCount (t ++ u) i = finishedCount t i + finishedCount u i := by
  simp [finishedCount, List.count_append]

theorem beganCount_eq_zero {tr : List Event} {i : Nat} :
    beganCount tr i = 0 ↔ i ∉ startedOf tr := by
  simp [beganCount, List.count_eq_zero]

theorem finishedCount_eq_zero {tr : List Event} {i : Nat} :
    finishedCount tr i = 0 ↔ i ∉ finishedOf tr := by
  simp [finishedCount, List.count_eq_zero]

/-- Removing position `k` from a list accounts for exactly the occurrence at
`k` in the occurrence count of every value. -/
theorem count_eraseIdx (l : List Nat) (k : Nat) (h : k < l.length) (a : Nat) :
    l.count a = (l.eraseIdx k).count a + (if l.getD k 0 = a then 1 else 0) := by
  induction l generalizing k with
  | nil => cases h
  | cons x xs ih =>
    cases k with
    | zero =>
      simp only [List.eraseIdx_cons_zero, List.getD_cons_zero, List.count_cons]
      by_cases hx : x = a <;> simp [hx]
    | succ k =>
      have hk : k < xs.length := by simpa using h
      simp only [List.eraseIdx_cons_succ, List.getD_cons_succ, List.count_cons]
      have := ih k hk
      omega

/-- The element selected by `getD` at an in-range position is a member. -/
theorem getD_mem_of_lt (l : List Nat) (k : Nat) (h : k < l.length) :
    l.getD k 0 ∈ l := by
  rw [List.getD_eq_getElem _ _ h]
  exact List.getElem_mem h

/-! ## The shape of a dispatch-loop step -/

theorem finishStep_none_iff (cfg : RunConfig) (s : RunState) :
    finishStep cfg s = none ↔ s.active = [] := by
  cases h : s.active with
  | nil => simp [finishStep, h]
  | cons a l => simp [finishStep, h]

/-- The two explicit outcomes of starting a task, as record updates. -/
theorem startTask_spawnOk {cfg : RunConfig} {s : RunState} {i : Nat} {rest : List Nat}
    (h : (cfg.beh i).spawnOk = true) :
    startTask cfg s i rest =
      { s with backlog := rest, active := s.active ++ [i],
               trace := s.trace ++ [.began i (cfg.beh i).pid (cfg.taskAt i).context] } := by
  simp [startTask, h]

theorem startTask_spawnFail {cfg : RunConfig} {s : RunState} {i : Nat} {rest : List Nat}
    (h : (cfg.beh i).spawnOk = false) :
    startTask cfg s i rest =
      { s with backlog := rest,
               stopping := s.stopping ||
                 (cfg.finishCb 0 sentinelFailureCode "" (cfg.taskAt i).context).isStop,
               anyFailed := true,
               trace := s.trace ++ [.began i 0 (cfg.taskAt i).context,
                                    .finished i 0 sentinelFailureCode "" (cfg.taskAt i).context] } := by
  simp [startTask, h]

/-- The explicit outcome of finishing the active task at position `k`. -/
theorem finishAt_eq (cfg : RunConfig) (s : RunState) (k : Nat) :
    finishAt cfg s k =
      { s with active := s.active.eraseIdx k,
               stopping := s.stopping ||
                 (cfg.finishCb (cfg.beh (s.active.getD k 0)).pid
                   (cfg.beh (s.active.getD k 0)).retCode
                   (if cfg.platform.supportsBufferingOutput
                     then (cfg.beh (s.active.getD k 0)).rawOutput else "")
                   (cfg.taskAt (s.active.getD k 0)).context).isStop,
               anyFailed := s.anyFailed || decide ((cfg.beh (s.active.getD k 0)).retCode ≠ 0),
               trace := s.trace ++ [.finished (s.active.getD k 0)
                   (cfg.beh (s.active.getD k 0)).pid
                   (cfg.beh (s.active.getD k 0)).retCode
                   (if cfg.platform.supportsBufferingOutput
                     then (cfg.beh (s.active.getD k 0)).rawOutput else "")
                   (cfg.taskAt (s.active.getD k 0)).context] } := rfl

theorem finishStep_some {cfg : RunConfig} {s s' : RunState}
    (h : finishStep cfg s = some s') :
    ∃ k, k < s.active.length ∧ s' = finishAt cfg s k := by
  cases ha : s.active with
  | nil => simp [finishStep, ha] at h
  | cons a l =>
    simp only [finishStep, ha, Option.some.injEq] at h
    refine ⟨cfg.sched s.trace.length % (a :: l).length, Nat.mod_lt _ (by simp), ?_⟩
    exact h.symm

/-- Every successful step of the dispatch loop is either the start of the head
of the backlog (with an open slot and no stop in force) or the completion of
one member of the active set. -/
theorem step_cases {cfg : RunConfig} {s s' : RunState}
    (h : stepState cfg s = some s') :
    (∃ i rest, s.backlog = i :: rest ∧ s.active.length < cfg.limit ∧
        s.stopping = false ∧ s' = startTask cfg s i rest) ∨
    (∃ k, k < s.active.length ∧ s' = finishAt cfg s k) := by
  cases hb : s.backlog with
  | nil =>
    simp only [stepState, hb] at h
    exact Or.inr (finishStep_some h)
  | cons i rest =>
    simp only [stepState, hb] at h
    by_cases hg : s.active.length < cfg.limit ∧ s.stopping = false
    · rw [if_pos hg] at h
      exact Or.inl ⟨i, rest, rfl, hg.1, hg.2, (Option.some_inj.mp h).symm⟩
    · rw [if_neg hg] at h
      exact Or.inr (finishStep_some h)

theorem stepState_none_active {cfg : RunConfig} {s : RunState}
    (h : stepState cfg s = none) : s.active = [] := by
  cases hb : s.backlog with
  | nil =>
    simp only [stepState, hb] at h
    exact (finishStep_none_iff cfg s).mp h
  | cons i rest =>
    simp only [stepState, hb] at h
    by_cases hg : s.active.length < cfg.limit ∧ s.stopping = false
    · rw [if_pos hg] at h; cases h
    · rw [if_neg hg] at h
      exact (finishStep_none_iff cfg s).mp h

/-! ## Iteration facts -/

theorem runIter_zero (cfg : RunConfig) (s : RunState) : runIter cfg 0 s = s := rfl

theorem runIter_of_none {cfg : RunConfig} {s : RunState}
    (h : stepState cfg s = none) (n : Nat) : runIter cfg n s = s := by
  cases n with
  | zero => rfl
  | succ n => simp [runIter, h]

theorem runIter_succ_of_some {cfg : RunConfig} {s s' : RunState}
    (h : stepState cfg s = some s') (n : Nat) :
    runIter cfg (n + 1) s = runIter cfg n s' := by
  simp [runIter, h]

theorem runIter_add (cfg : RunConfig) (m n : Nat) (s : RunState) :
    runIter cfg (m + n) s = runIter cfg n (runIter cfg m s) := by
  induction m generalizing s with
  | zero => simp [runIter_zero]
  | succ m ih =>
    cases h : stepState cfg s with
    | none => simp [runIter_of_none h]
    | some s' =>
      have h1 : m + 1 + n = (m + n) + 1 := by omega
      rw [h1, runIter_succ_of_some h, runIter_succ_of_some h, ih]

/-- Any property preserved by single steps of the dispatch loop is preserved
by iteration. -/
theorem invariant_runIter {cfg : RunConfig} {P : RunState → Prop}
    (hstep : ∀ s s', stepState cfg s = some s' → P s → P s') :
    ∀ n s, P s → P (runIter cfg n s) := by
  intro n
  induction n with
  | zero => intro s hs; exact hs
  | succ n ih =>
    intro s hs
    cases h : stepState cfg s with
    | none => simpa [runIter, h] using hs
    | some s' => simpa [runIter, h] using ih s' (hstep s s' h hs)

theorem loopMeasure_step {cfg : RunConfig} {s s' : RunState}
    (h : stepState cfg s = some s') : loopMeasure s' < loopMeasure s := by
  rcases step_cases h with ⟨i, rest, hb, _, _, rfl⟩ | ⟨k, hk, rfl⟩
  · cases hs : (cfg.beh i).spawnOk with
    | true =>
      rw [startTask_spawnOk hs]
      simp only [loopMeasure, hb, List.length_append, List.length_cons, List.length_nil]
      omega
    | false =>
      rw [startTask_spawnFail hs]
      simp only [loopMeasure, hb, List.length_cons, List.length_nil]
      omega
  · rw [finishAt_eq]
    simp only [loopMeasure, List.length_eraseIdx, if_pos hk]
    omega

theorem terminal_runIter {cfg : RunConfig} :
    ∀ n (s : RunState), loopMeasure s ≤ n → stepState cfg (runIter cfg n s) = none := by
  intro n
  induction n with
  | zero =>
    intro s h
    have hb : s.backlog = [] := by
      have : s.backlog.length = 0 := by unfold loopMeasure at h; omega
      exact List.length_eq_zero.mp this
    have ha : s.active = [] := by
      have : s.active.length = 0 := by unfold loopMeasure at h; omega
      exact List.length_eq_zero.mp this
    rw [runIter_zero]
    unfold stepState
    rw [hb]
    exact (finishStep_none_iff cfg s).mpr ha
  | succ n ih =>
    intro s h
    cases hst : stepState cfg s with
    | none => rw [runIter_of_none hst]; exact hst
    | some s' =>
      rw [runIter_succ_of_some hst]
      exact ih s' (by have := loopMeasure_step hst; omega)

theorem loopMeasure_init (cfg : RunConfig) :
    loopMeasure (initState cfg) = fuelOf cfg := by
  simp [loopMeasure, initState, fuelOf]

/-- The final state of a run is terminal: no further step is possible. -/
theorem execFinal_terminal (cfg : RunConfig) :
    stepState cfg (execFinal cfg) = none := by
  unfold execFinal
  exact terminal_runIter _ _ (le_of_eq (loopMeasure_init cfg))

/-- The final state of a run has an empty active set. -/
theorem execFinal_active (cfg : RunConfig) : (execFinal cfg).active = [] :=
  stepState_none_active (execFinal_terminal cfg)

/-- The final state is reachable from every intermediate state of the run. -/
theorem final_from (cfg : RunConfig) (n : Nat) :
    ∃ m, execFinal cfg = runIter cfg m (runIter cfg n (initState cfg)) := by
  rcases Nat.le_total n (fuelOf cfg) with h | h
  · refine ⟨fuelOf cfg - n, ?_⟩
    rw [← runIter_add]
    unfold execFinal
    congr 1
    omega
  · refine ⟨0, ?_⟩
    rw [runIter_zero]
    have h2 : n = fuelOf cfg + (n - fuelOf cfg) := by omega
    rw [h2, runIter_add]
    exact (runIter_of_none (execFinal_terminal cfg) _).symm

theorem ReachInv.init (cfg : RunConfig) : ReachInv cfg (initState cfg) := by
  refine ⟨?_, ?_, ?_, ?_, ?_, ?_, ?_, ?_⟩ <;> simp [initState]

theorem ReachInv.start_ok {cfg : RunConfig} {s : RunState} {j : Nat} {rest : List Nat}
    (hs : ReachInv cfg s) (hb : s.backlog = j :: rest)
    (hsp : (cfg.beh j).spawnOk = true) :
    ReachInv cfg (startTask cfg s j rest) := by
  obtain ⟨hA, hB, hP, hD, hE, hF, hG, hH⟩ := hs
  rw [startTask_spawnOk hsp]
  refine ⟨?_, ?_, ?_, ?_, ?_, ?_, ?_, ?_⟩
  · rw [hb] at hA
    simpa [List.append_assoc] using hA
  · intro i
    have hBi := hB i
    by_cases hij : j = i <;>
      simp only [beganCount_append, finishedCount_append, List.count_append,
        beganCount_one, finishedCount_one_began, List.count_cons, List.count_nil,
        beq_iff_eq, hij, if_true, if_false, if_pos, if_neg, not_false_iff] <;>
      simp [hij] <;> omega
  · intro i n
    rw [List.take_append_eq_append_take, finishedCount_append, beganCount_append]
    cases hn : n - s.trace.length with
    | zero =>
      simpa using hP i n
    | succ m =>
      have ht : s.trace.take n = s.trace := List.take_of_length_le (by omega)
      rw [ht]
      have hfb : finishedCount s.trace i ≤ beganCount s.trace i := by
        have := hB i; omega
      calc finishedCount s.trace i + finishedCount ((List.take (m + 1) _)) i
          = finishedCount s.trace i := by
            simp [List.take_succ_cons, finishedCount_one_began]
        _ ≤ beganCount s.trace i := hfb
        _ ≤ _ := Nat.le_add_right _ _
  · rw [hD]
    constructor
    · rintro ⟨e, he, hfe⟩
      exact ⟨e, by simp [he], hfe⟩
    · rintro ⟨e, he, hfe⟩
      rcases List.mem_append.mp he with h1 | h1
      · exact ⟨e, h1, hfe⟩
      · simp only [List.mem_singleton] at h1
        subst h1
        simp [failedFinish] at hfe
  · intro i hi hfail
    rcases by simpa using hi with h1 | h1
    · obtain ⟨e, he, hfe⟩ := hE i h1 hfail
      exact ⟨e, by simp [he], hfe⟩
    · subst h1
      rw [hsp] at hfail
      cases hfail
  · intro hbuf e he
    rcases List.mem_append.mp he with h1 | h1
    · exact hF hbuf e h1
    · simp only [List.mem_singleton] at h1
      subst h1
      rfl
  · intro e he
    rcases List.mem_append.mp he with h1 | h1
    · exact hG e h1
    · simp only [List.mem_singleton] at h1
      subst h1
      rfl
  · intro i hi hfail
    rcases by simpa using hi with h1 | h1
    · obtain ⟨p, hp, h1', h2'⟩ := hH i h1 hfail
      refine ⟨p, ?_, ?_, ?_⟩
      · simp only [List.length_append, List.length_cons, List.length_nil]
        omega
      · rw [List.getD_append _ _ _ _ (by omega)]
        exact h1'
      · rw [List.getD_append _ _ _ _ (by omega)]
        exact h2'
    · subst h1
      rw [hsp] at hfail
      cases hfail

theorem ReachInv.start_fail {cfg : RunConfig} {s : RunState} {j : Nat} {rest : List Nat}
    (hs : ReachInv cfg s) (hb : s.backlog = j :: rest)
    (hsp : (cfg.beh j).spawnOk = false) :
    ReachInv cfg (startTask cfg s j rest) := by
  obtain ⟨hA, hB, hP, hD, hE, hF, hG, hH⟩ := hs
  rw [startTask_spawnFail hsp]
  refine ⟨?_, ?_, ?_, ?_, ?_, ?_, ?_, ?_⟩
  · rw [hb] at hA
    simpa [List.append_assoc] using hA
  · intro i
    have hBi := hB i
    have hbc : beganCount [Event.began j 0 (cfg.taskAt j).context,
        Event.finished j 0 sentinelFailureCode "" (cfg.taskAt j).context] i =
        if j = i then 1 else 0 := by
      simp [beganCount, List.count_cons, List.count_nil, beq_iff_eq]
    have hfc : finishedCount [Event.began j 0 (cfg.taskAt j).context,
        Event.finished j 0 sentinelFailureCode "" (cfg.taskAt j).context] i =
        if j = i then 1 else 0 := by
      simp [finishedCount, List.count_cons, List.count_nil, beq_iff_eq]
    rw [beganCount_append, finishedCount_append, hbc, hfc]
    by_cases hij : j = i <;> simp [hij] <;> omega
  · intro i n
    rw [List.take_append_eq_append_take, finishedCount_append, beganCount_append]
    have hfb : finishedCount s.trace i ≤ beganCount s.trace i := by
      have := hB i; omega
    cases hn : n - s.trace.length with
    | zero =>
      simpa using hP i n
    | succ m =>
      have ht : s.trace.take n = s.trace := List.take_of_length_le (by omega)
      rw [ht]
      cases m with
      | zero =>
        simp only [List.take_succ_cons, List.take_zero]
        rw [finishedCount_one_began, beganCount_one]
        by_cases hij : j = i <;> simp [hij] <;> omega
      | succ m' =>
        have h2 : List.take (m' + 1 + 1)
            [Event.began j 0 (cfg.taskAt j).context,
             Event.finished j 0 sentinelFailureCode "" (cfg.taskAt j).context] =
            [Event.began j 0 (cfg.taskAt j).context,
             Event.finished j 0 sentinelFailureCode "" (cfg.taskAt j).context] :=
          List.take_of_length_le (by simp)
        rw [h2]
        have hbc : beganCount [Event.began j 0 (cfg.taskAt j).context,
            Event.finished j 0 sentinelFailureCode "" (cfg.taskAt j).context] i =
            if j = i then 1 else 0 := by
          simp [beganCount, List.count_cons, List.count_nil, beq_iff_eq]
        have hfc : finishedCount [Event.began j 0 (cfg.taskAt j).context,
            Event.finished j 0 sentinelFailureCode "" (cfg.taskAt j).context] i =
            if j = i then 1 else 0 := by
          simp [finishedCount, List.count_cons, List.count_nil, beq_iff_eq]
        rw [hbc, hfc]
        omega
  · constructor
    · intro _
      refine ⟨Event.finished j 0 sentinelFailureCode "" (cfg.taskAt j).context,
        by simp, ?_⟩
      simp [failedFinish, sentinelFailureCode]
    · intro _
      rfl
  · intro i hi hfail
    refine ⟨Event.finished j 0 sentinelFailureCode "" (cfg.taskAt j).context,
      by simp, ?_⟩
    simp [failedFinish, sentinelFailureCode]
  · intro hbuf e he
    rcases List.mem_append.mp he with h1 | h1
    · exact hF hbuf e h1
    · rcases by simpa using h1 with h2 | h2 <;> (subst h2; rfl)
  · intro e he
    rcases List.mem_append.mp he with h1 | h1
    · exact hG e h1
    · rcases by simpa using h1 with h2 | h2 <;> (subst h2; rfl)
  · intro i hi hfail
    rcases by simpa using hi with h1 | h1
    · obtain ⟨p, hp, h1', h2'⟩ := hH i h1 hfail
      refine ⟨p, ?_, ?_, ?_⟩
      · simp only [List.length_append, List.length_cons, List.length_nil]
        omega
      · rw [List.getD_append _ _ _ _ (by omega)]
        exact h1'
      · rw [List.getD_append _ _ _ _ (by omega)]
        exact h2'
    · subst h1
      refine ⟨s.trace.length, ?_, ?_, ?_⟩
      · simp only [List.length_append, List.length_cons, List.length_nil]
        omega
      · rw [List.getD_append_right _ _ _ _ (Nat.le_refl _), Nat.sub_self]
        rfl
      · rw [List.getD_append_right _ _ _ _ (by omega)]
        have : s.trace.length + 1 - s.trace.length = 1 := by omega
        rw [this]
        rfl

theorem ReachInv.finish {cfg : RunConfig} {s : RunState} {k : Nat}
    (hs : ReachInv cfg s) (hk : k < s.active.length) :
    ReachInv cfg (finishAt cfg s k) := by
  obtain ⟨hA, hB, hP, hD, hE, hF, hG, hH⟩ := hs
  have hjmem : s.active.getD k 0 ∈ s.active := getD_mem_of_lt s.active k hk
  have hcp : 0 < s.active.count (s.active.getD k 0) := List.count_pos_iff.mpr hjmem
  have hce := count_eraseIdx s.active k hk
  rw [finishAt_eq]
  refine ⟨?_, ?_, ?_, ?_, ?_, ?_, ?_, ?_⟩
  · simpa using hA
  · intro i
    have hBi := hB i
    have hcei := hce i
    rw [beganCount_append, finishedCount_append, beganCount_one_finished,
      finishedCount_one_finished]
    simp only []
    by_cases hij : s.active.getD k 0 = i
    · rw [if_pos hij] at hcei ⊢
      omega
    · rw [if_neg hij] at hcei ⊢
      omega
  · intro i n
    rw [List.take_append_eq_append_take, finishedCount_append, beganCount_append]
    cases hn : n - s.trace.length with
    | zero =>
      simpa using hP i n
    | succ m =>
      have ht : s.trace.take n = s.trace := List.take_of_length_le (by omega)
      rw [ht]
      simp only [List.take_succ_cons, List.take_zero, List.take_nil]
      rw [beganCount_one_finished, finishedCount_one_finished]
      have hBi := hB i
      by_cases hij : s.active.getD k 0 = i
      · rw [if_pos hij]
        have hcpi : 0 < List.count i s.active := by rw [← hij]; exact hcp
        omega
      · rw [if_neg hij]
        omega
  · simp only [Bool.or_eq_true, decide_eq_true_eq]
    constructor
    · rintro (h1 | h1)
      · obtain ⟨e, he, hfe⟩ := hD.mp h1
        exact ⟨e, by simp [he], hfe⟩
      · refine ⟨Event.finished (s.active.getD k 0) (cfg.beh (s.active.getD k 0)).pid
          (cfg.beh (s.active.getD k 0)).retCode
          (if cfg.platform.supportsBufferingOutput then
            (cfg.beh (s.active.getD k 0)).rawOutput else "")
          (cfg.taskAt (s.active.getD k 0)).context, by simp, ?_⟩
        simp only [failedFinish, decide_eq_true_eq]
        exact h1
    · rintro ⟨e, he, hfe⟩
      rcases List.mem_append.mp he with h1 | h1
      · exact Or.inl (hD.mpr ⟨e, h1, hfe⟩)
      · simp only [List.mem_singleton] at h1
        subst h1
        simp only [failedFinish, decide_eq_true_eq] at hfe
        exact Or.inr hfe
  · intro i hi hfail
    have hi' : i ∈ startedOf s.trace := by simpa using hi
    obtain ⟨e, he, hfe⟩ := hE i hi' hfail
    exact ⟨e, by simp [he], hfe⟩
  · intro hbuf e he
    rcases List.mem_append.mp he with h1 | h1
    · exact hF hbuf e h1
    · simp only [List.mem_singleton] at h1
      subst h1
      simp [eventOutput, hbuf]
  · intro e he
    rcases List.mem_append.mp he with h1 | h1
    · exact hG e h1
    · simp only [List.mem_singleton] at h1
      subst h1
      rfl
  · intro i hi hfail
    have hi' : i ∈ startedOf s.trace := by simpa using hi
    obtain ⟨p, hp, h1', h2'⟩ := hH i hi' hfail
    refine ⟨p, ?_, ?_, ?_⟩
    · simp only [List.length_append, List.length_cons, List.length_nil]
      omega
    · rw [List.getD_append _ _ _ _ (by omega)]
      exact h1'
    · rw [List.getD_append _ _ _ _ (by omega)]
      exact h2'

/-- The run invariant is preserved by every step of the dispatch loop. -/
theorem ReachInv.step {cfg : RunConfig} {s s' : RunState}
    (h : stepState cfg s = some s') (hs : ReachInv cfg s) : ReachInv cfg s' := by
  rcases step_cases h with ⟨j, rest, hb, _, _, rfl⟩ | ⟨k, hk, rfl⟩
  · cases hsp : (cfg.beh j).spawnOk with
    | true => exact hs.start_ok hb hsp
    | false => exact hs.start_fail hb hsp
  · exact hs.finish hk

/-- The run invariant holds at every instant of every run. -/
theorem reachInv_runIter (cfg : RunConfig) (n : Nat) :
    ReachInv cfg (runIter cfg n (initState cfg)) :=
  invariant_runIter (fun _ _ h hs => hs.step h) n _ (ReachInv.init cfg)

/-- The run invariant holds at the final state of every run. -/
theorem reachInv_final (cfg : RunConfig) : ReachInv cfg (execFinal cfg) :=
  reachInv_runIter cfg (fuelOf cfg)

/-! ## The stop protocol and trace growth -/

/-- Once the stop flag is set, a step keeps it set and leaves the backlog
untouched: stopping prevents any further start. -/
theorem stop_frozen_step {cfg : RunConfig} {s s' : RunState}
    (h : stepState cfg s = some s') (hstop : s.stopping = true) :
    s'.stopping = true ∧ s'.backlog = s.backlog := by
  rcases step_cases h with ⟨j, rest, hb, _, hsf, rfl⟩ | ⟨k, hk, rfl⟩
  · rw [hsf] at hstop
    cases hstop
  · rw [finishAt_eq]
    refine ⟨?_, rfl⟩
    simp only []
    rw [hstop]
    rfl

/-- Once the stop flag is set, the whole remaining run keeps it set and leaves
the backlog untouched. -/
theorem stop_frozen_runIter (cfg : RunConfig) (s : RunState)
    (hstop : s.stopping = true) (m : Nat) :
    (runIter cfg m s).stopping = true ∧ (runIter cfg m s).backlog = s.backlog :=
  invariant_runIter
    (P := fun x => x.stopping = true ∧ x.backlog = s.backlog)
    (fun a a' h ha => by
      obtain ⟨h1, h2⟩ := stop_frozen_step h ha.1
      exact ⟨h1, h2.trans ha.2⟩) m s ⟨hstop, rfl⟩

/-- A step only appends to the trace. -/
theorem trace_extends_step {cfg : RunConfig} {s s' : RunState}
    (h : stepState cfg s = some s') : ∃ u, s'.trace = s.trace ++ u := by
  rcases step_cases h with ⟨j, rest, hb, _, _, rfl⟩ | ⟨k, hk, rfl⟩
  · cases hsp : (cfg.beh j).spawnOk with
    | true => rw [startTask_spawnOk hsp]; exact ⟨_, rfl⟩
    | false => rw [startTask_spawnFail hsp]; exact ⟨_, rfl⟩
  · rw [finishAt_eq]
    exact ⟨_, rfl⟩

/-- Iteration only appends to the trace. -/
theorem trace_extends_runIter (cfg : RunConfig) (s : RunState) (m : Nat) :
    ∃ u, (runIter cfg m s).trace = s.trace ++ u :=
  invariant_runIter
    (P := fun x => ∃ u, x.trace = s.trace ++ u)
    (fun a a' h ha => by
      obtain ⟨u, hu⟩ := ha
      obtain ⟨v, hv⟩ := trace_extends_step h
      exact ⟨u ++ v, by rw [hv, hu, List.append_assoc]⟩) m s ⟨[], by simp⟩

/-! ## The claims -/

/-- C1: `execute` returns `true` exactly when some task finished with a
failing (nonzero) status, or some started task failed to spawn, or the run
was stopped (by a `StopExecution` response) while the backlog was not yet
drained; in every other case it returns `false`. -/
theorem execute_true_iff (cfg : RunConfig) :
    cfg.queue.execute cfg.platform cfg.beh cfg.finishCb cfg.sched = true ↔
      ((∃ e ∈ (execFinal cfg).trace, failedFinish e = true) ∨
       (∃ i ∈ startedOf (execFinal cfg).trace, (cfg.beh i).spawnOk = false) ∨
       ((execFinal cfg).stopping = true ∧ (execFinal cfg).backlog ≠ [])) := by
  have inv := reachInv_final cfg
  have hexec : cfg.queue.execute cfg.platform cfg.beh cfg.finishCb cfg.sched =
      ((execFinal cfg).anyFailed ||
        ((execFinal cfg).stopping && !(execFinal cfg).backlog.isEmpty)) := rfl
  rw [hexec]
  simp only [Bool.or_eq_true, Bool.and_eq_true, Bool.not_eq_true',
    List.isEmpty_eq_false]
  constructor
  · rintro (hf | ⟨hstop, hne⟩)
    · exact Or.inl (inv.failFlag.mp hf)
    · exact Or.inr (Or.inr ⟨hstop, hne⟩)
  · rintro (h | h | ⟨hstop, hne⟩)
    · exact Or.inl (inv.failFlag.mpr h)
    · obtain ⟨i, hi, hsp⟩ := h
      exact Or.inl (inv.failFlag.mpr (inv.spawnFailEv i hi hsp))
    · exact Or.inr ⟨hstop, hne⟩

/-- C2: at every instant of every run, the number of active (spawned, not yet
finished) tasks is at most the resolved parallelism ceiling reported by
`getNumberOfParallelTasks`. -/
theorem active_le_parallelism (cfg : RunConfig) (n : Nat) :
    (runIter cfg n (initState cfg)).active.length ≤
      cfg.queue.getNumberOfParallelTasks cfg.platform := by
  have hl : cfg.queue.getNumberOfParallelTasks cfg.platform = cfg.limit := rfl
  rw [hl]
  refine invariant_runIter (P := fun s => s.active.length ≤ cfg.limit)
    (fun s s' h hs => ?_) n _ (by simp [initState])
  rcases step_cases h with ⟨j, rest, hb, hlim, _, rfl⟩ | ⟨k, hk, rfl⟩
  · cases hsp : (cfg.beh j).spawnOk with
    | true =>
      rw [startTask_spawnOk hsp]
      simp only [List.length_append, List.length_cons, List.length_nil]
      omega
    | false =>
      rw [startTask_spawnFail hsp]
      simpa using hs
  · rw [finishAt_eq]
    simp only [List.length_eraseIdx, if_pos hk]
    omega

/-- C4: tasks are started in enqueue (insertion) order: the sequence of
backlog positions whose began callback fires is strictly increasing, so a
task added earlier is never started after a task added later. -/
theorem fifo_start_order (cfg : RunConfig) :
    List.Pairwise (· < ·) (startedOf (execFinal cfg).trace) := by
  have hA := (reachInv_final cfg).started_backlog
  have heq : startedOf (execFinal cfg).trace =
      List.take (startedOf (execFinal cfg).trace).length (List.range cfg.numTasks) := by
    rw [← hA, List.take_left]
  rw [heq]
  exact List.Pairwise.sublist (List.take_sublist _ _) (List.pairwise_lt_range _)

/-- C6: the parallelism ceiling is resolved from the constructor argument and
the platform: a positive request is used as-is, a request of 0 is replaced by
the platform's hardware-concurrency figure, and a platform without parallel
execution forces the ceiling to 1 regardless of the request. -/
theorem parallelism_resolution (q : TaskQueue) (p : Platform) :
    (p.supportsParallelExecution = false → q.getNumberOfParallelTasks p = 1) ∧
    (p.supportsParallelExecution = true → q.numberOfParallelTasks = 0 →
      q.getNumberOfParallelTasks p = p.hardwareConcurrency) ∧
    (p.supportsParallelExecution = true → 0 < q.numberOfParallelTasks →
      q.getNumberOfParallelTasks p = q.numberOfParallelTasks) := by
  refine ⟨?_, ?_, ?_⟩
  · intro h
    simp [TaskQueue.getNumberOfParallelTasks, resolveParallelism, h]
  · intro h hz
    simp [TaskQueue.getNumberOfParallelTasks, resolveParallelism, h, hz]
  · intro h hz
    simp [TaskQueue.getNumberOfParallelTasks, resolveParallelism, h, Nat.pos_iff_ne_zero.mp hz]

/-- C3: the began callback fires at most once per task, a task receives
exactly as many finished callbacks as began callbacks (so every started task
is finished exactly once), in every trace prefix a task's finished callbacks
never outnumber its began callbacks (its began precedes its finished), and a
task still pending in the backlog when the run ends has received neither
callback. -/
theorem callback_pairing (cfg : RunConfig) (i : Nat) :
    beganCount (execFinal cfg).trace i ≤ 1 ∧
    finishedCount (execFinal cfg).trace i = beganCount (execFinal cfg).trace i ∧
    (∀ n, finishedCount ((execFinal cfg).trace.take n) i ≤
      beganCount ((execFinal cfg).trace.take n) i) ∧
    (i ∈ (execFinal cfg).backlog →
      beganCount (execFinal cfg).trace i = 0 ∧
      finishedCount (execFinal cfg).trace i = 0) := by
  have inv := reachInv_final cfg
  have hcount := inv.counts i
  rw [execFinal_active cfg] at hcount
  simp only [List.count_nil] at hcount
  have hnodup : (startedOf (execFinal cfg).trace ++ (execFinal cfg).backlog).Nodup := by
    rw [inv.started_backlog]
    exact List.nodup_range _
  obtain ⟨hnd1, _, hdisj⟩ := List.nodup_append.mp hnodup
  refine ⟨List.nodup_iff_count_le_one.mp hnd1 i, by omega, inv.prefixCounts i, ?_⟩
  intro hib
  have h0 : beganCount (execFinal cfg).trace i = 0 :=
    beganCount_eq_zero.mpr (fun hmem => hdisj hmem hib)
  exact ⟨h0, by omega⟩

/-- C5: once the stop flag has been set (a finished callback returned
`StopExecution`), every task still in the backlog at that instant is never
started, while every task then active still receives exactly one finished
callback. -/
theorem stop_propagation (cfg : RunConfig) (n : Nat)
    (hstop : (runIter cfg n (initState cfg)).stopping = true) :
    (∀ i ∈ (runIter cfg n (initState cfg)).backlog,
      beganCount (execFinal cfg).trace i = 0) ∧
    (∀ i ∈ (runIter cfg n (initState cfg)).active,
      finishedCount (execFinal cfg).trace i = 1) := by
  have inv := reachInv_final cfg
  have invn := reachInv_runIter cfg n
  obtain ⟨m, hm⟩ := final_from cfg n
  have hfrozen := stop_frozen_runIter cfg _ hstop m
  have hbk : (execFinal cfg).backlog = (runIter cfg n (initState cfg)).backlog := by
    rw [hm]
    exact hfrozen.2
  have hnodup : (startedOf (execFinal cfg).trace ++ (execFinal cfg).backlog).Nodup := by
    rw [inv.started_backlog]
    exact List.nodup_range _
  obtain ⟨hnd1, _, hdisj⟩ := List.nodup_append.mp hnodup
  constructor
  · intro i hib
    refine beganCount_eq_zero.mpr (fun hmem => hdisj hmem ?_)
    rw [hbk]
    exact hib
  · intro i hia
    have hb1 : 1 ≤ beganCount (runIter cfg n (initState cfg)).trace i := by
      have hcnt := invn.counts i
      have hpos : 0 < List.count i (runIter cfg n (initState cfg)).active :=
        List.count_pos_iff.mpr hia
      omega
    obtain ⟨u, hu⟩ := trace_extends_runIter cfg (runIter cfg n (initState cfg)) m
    rw [← hm] at hu
    have hble : 1 ≤ beganCount (execFinal cfg).trace i := by
      rw [hu, beganCount_append]
      omega
    have hble1 : beganCount (execFinal cfg).trace i ≤ 1 :=
      List.nodup_iff_count_le_one.mp hnd1 i
    have hcnt := inv.counts i
    rw [execFinal_active cfg] at hcnt
    simp only [List.count_nil] at hcnt
    omega

/-- C7: a started task whose spawn fails raises no exceptional control flow:
its began callback fires, and the immediately following event is its finished
callback carrying the sentinel failure status and empty output, exactly as
for a normally-run task. -/
theorem spawn_failure_reported (cfg : RunConfig) (i : Nat)
    (hi : i ∈ startedOf (execFinal cfg).trace)
    (hsp : (cfg.beh i).spawnOk = false) :
    ∃ p, p + 1 < (execFinal cfg).trace.length ∧
      (execFinal cfg).trace.getD p default = Event.began i 0 (cfg.taskAt i).context ∧
      (execFinal cfg).trace.getD (p + 1) default =
        Event.finished i 0 sentinelFailureCode "" (cfg.taskAt i).context :=
  (reachInv_final cfg).spawnAdj i hi hsp

/-- C8: on a platform that does not support buffering output, every callback
invocation of the run carries an empty output string, regardless of what the
task's behavior produced. -/
theorem output_empty_without_buffering (cfg : RunConfig)
    (h : cfg.platform.supportsBufferingOutput = false) :
    ∀ e ∈ (execFinal cfg).trace, eventOutput e = "" :=
  (reachInv_final cfg).outputsEmpty h

/-- C9: the opaque context handle round-trips unchanged: `addTask` stores the
supplied context in the new task description, and every began and finished
callback of a run receives exactly the context stored for its task. -/
theorem context_round_trip (cfg : RunConfig) (q : TaskQueue) (path : String)
    (args env : List String) (c : Nat) :
    ((q.addTask path args env c).queuedTasks.getD q.queuedTasks.length default).context
      = c ∧
    ∀ e ∈ (execFinal cfg).trace, eventCtx e = (cfg.taskAt (eventIdx e)).context := by
  constructor
  · rw [TaskQueue.addTask]
    simp only []
    rw [List.getD_append_right _ _ _ _ (Nat.le_refl _), Nat.sub_self]
    rfl
  · exact (reachInv_final cfg).ctxOk

/-! ## Concrete witnesses -/

/-- Witness for C3 on a concrete stopped run: task 2 is still pending when
the run ends and has received no began callback. -/
theorem callback_pairing_witness :
    2 ∈ (execFinal cfgStop).backlog ∧ beganCount (execFinal cfgStop).trace 2 = 0 :=
  ⟨by decide, ((callback_pairing cfgStop 2).2.2.2 (by decide)).1⟩

/-- Witness for C5 on a concrete run: after three steps the stop flag is set,
and the task then pending (task 2) is never started. -/
theorem stop_propagation_witness :
    (runIter cfgStop 3 (initState cfgStop)).stopping = true ∧
    beganCount (execFinal cfgStop).trace 2 = 0 :=
  ⟨by decide, (stop_propagation cfgStop 3 (by decide)).1 2 (by decide)⟩

/-- Witness for C6: the three resolution cases at concrete requests. -/
theorem parallelism_resolution_witness :
    (⟨[], 3⟩ : TaskQueue).getNumberOfParallelTasks ⟨true, true, 8⟩ = 3 ∧
    (⟨[], 0⟩ : TaskQueue).getNumberOfParallelTasks ⟨true, true, 8⟩ = 8 ∧
    (⟨[], 3⟩ : TaskQueue).getNumberOfParallelTasks ⟨true, false, 8⟩ = 1 :=
  ⟨(parallelism_resolution ⟨[], 3⟩ ⟨true, true, 8⟩).2.2 rfl (by decide),
   (parallelism_resolution ⟨[], 0⟩ ⟨true, true, 8⟩).2.1 rfl rfl,
   (parallelism_resolution ⟨[], 3⟩ ⟨true, false, 8⟩).1 rfl⟩

/-- Witness for C7 on a concrete run whose task 0 fails to spawn. -/
theorem spawn_failure_reported_witness :
    0 ∈ startedOf (execFinal cfgSpawnFail).trace ∧
    ∃ p, p + 1 < (execFinal cfgSpawnFail).trace.length ∧
      (execFinal cfgSpawnFail).trace.getD p default =
        Event.began 0 0 (cfgSpawnFail.taskAt 0).context ∧
      (execFinal cfgSpawnFail).trace.getD (p + 1) default =
        Event.finished 0 0 sentinelFailureCode "" (cfgSpawnFail.taskAt 0).context :=
  ⟨by decide, spawn_failure_reported cfgSpawnFail 0 (by decide) (by decide)⟩

/-- Witness for C8 on a concrete run without output buffering: the first
finished event carries empty output although the task wrote some. -/
theorem output_empty_without_buffering_witness :
    eventOutput ((execFinal cfgNoBuf).trace.getD 2 default) = "" :=
  output_empty_without_buffering cfgNoBuf rfl
    ((execFinal cfgNoBuf).trace.getD 2 default) (by decide)

/-- Witness for C9 on a concrete run: the first event of the stopped run
carries back exactly the stored context. -/
theorem context_round_trip_witness :
    ((((⟨[], 0⟩ : TaskQueue).addTask "x" [] [] 7).queuedTasks.getD 0 default).context
      = 7) ∧
    eventCtx ((execFinal cfgStop).trace.getD 0 default) =
      (cfgStop.taskAt (eventIdx ((execFinal cfgStop).trace.getD 0 default))).context :=
  ⟨(context_round_trip cfgStop ⟨[], 0⟩ "x" [] [] 7).1,
   (context_round_trip cfgStop ⟨[], 0⟩ "x" [] [] 7).2
     ((execFinal cfgStop).trace.getD 0 default) (by decide)⟩

end SwiftTaskQueue
